import Mathlib

/-!
Shallow embedding of the pagination-aggregation core of the `inspectorio`
client SDK, together with proofs of its specified properties.

The embedded code is `_fetch_all_with_pagination` (and its helper
`_clean_kwargs`) from `src/inspectorio/sight/inspectorio_sight.py` and
`src/inspectorio/sight/async_inspectorio_sight.py`.  The two Python bodies are
line-for-line the same algorithm (probe with `limit=1`, read `total`, tile
offsets with Python `range`, fan out one fetch per offset, join in schedule
order); they differ only in the host concurrency primitive
(`ThreadPoolExecutor(max_workers=N)` with `[task.result() for task in tasks]`
versus `asyncio.Semaphore(N)` with `asyncio.gather`).  The pure data path is
embedded once; the concurrency primitive is embedded separately as a
small-step scheduler (`SchedStep`) over task states guarded by a counting
semaphore, covering both hosts.

Python dictionaries of keyword arguments are modelled as insertion-ordered
association lists; Python integers are `Int`; a fetch call that raises is a
fetch capability returning `Except`.  Python `range(start, stop, step)` is
modelled including its `ValueError` on `step = 0`.
-/

namespace Inspectorio

/-- A Python value stored in a keyword-argument dictionary.  The pagination
keys (`"limit"`, `"offset"`, `"total_safe_limit"`) carry integers; every other
filter value is opaque and only forwarded, so a string constructor suffices. -/
inductive PyVal where
  | int (n : Int)
  | str (s : String)
  deriving DecidableEq

/-- A Python keyword-argument dictionary (`**kwargs`), modelled as an
insertion-ordered association list with no duplicate keys produced by the
embedded code paths. -/
def Kwargs : Type := List (String × PyVal)

instance : DecidableEq Kwargs := by
  unfold Kwargs
  infer_instance

/-- Dictionary lookup: `kwargs[key]` as an `Option`. -/
def Kwargs.get? (kwargs : Kwargs) (key : String) : Option PyVal :=
  (List.find? (fun kv => kv.1 == key) kwargs).map (fun kv => kv.2)

/-- Python `kwargs.get(key, default)` where the call site consumes the value
as an integer (`total_safe_limit`, `limit`).  Non-integer values for these
keys would be a `TypeError` in the source and are outside the model. -/
def Kwargs.getIntD (kwargs : Kwargs) (key : String) (d : Int) : Int :=
  match kwargs.get? key with
  | some (PyVal.int n) => n
  | _ => d

/-- `_clean_kwargs(kwargs, remove_keys)` with a list argument:
`{k: v for k, v in kwargs.items() if k not in remove_keys}`. -/
def cleanKwargs (kwargs : Kwargs) (removeKeys : List String) : Kwargs :=
  List.filter (fun kv => !(removeKeys.contains kv.1)) kwargs

/-- One page response: the decoded JSON dictionary returned by a fetch call.
`total?` is the `"total"` entry when present; `payload` stands for the opaque
rest of the dictionary (the `"data"` records). -/
structure PageResponse where
  total? : Option Int
  payload : Nat
  deriving DecidableEq

/-- `initial_data.get("total", 0)`. -/
def PageResponse.getTotal (r : PageResponse) : Int :=
  r.total?.getD 0

/-- An exception escaping the coordinator: either the `ValueError` raised by
`range()` on a zero step, or an exception raised by the fetch capability
(opaque payload). -/
inductive PyError where
  | valueError (msg : String)
  | fetchError (e : Nat)
  deriving DecidableEq

/-- A single-page fetch capability: the endpoint-wrapper method handed to
`_fetch_all_with_pagination`, invoked with keyword arguments; it returns a
decoded page or raises. -/
def FetchFun : Type := Kwargs → Except PyError PageResponse

/-- Equality of fetch results is decidable (used to evaluate the embedding on
concrete inputs). -/
instance {ε α : Type} [DecidableEq ε] [DecidableEq α] :
    DecidableEq (Except ε α) := fun x y =>
  match x, y with
  | Except.error a, Except.error b =>
    if h : a = b then Decidable.isTrue (by rw [h])
    else Decidable.isFalse (fun hc => h (Except.error.inj hc))
  | Except.ok a, Except.ok b =>
    if h : a = b then Decidable.isTrue (by rw [h])
    else Decidable.isFalse (fun hc => h (Except.ok.inj hc))
  | Except.error a, Except.ok b => Decidable.isFalse (fun hc => Except.noConfusion hc)
  | Except.ok a, Except.error b => Decidable.isFalse (fun hc => Except.noConfusion hc)


/-- Module constant `DEFAULT_LIMIT = 10`. -/
def DEFAULT_LIMIT : Int := 10

/-- Number of elements of Python `range(start, stop, step)` for `step ≠ 0`
(the usual ceiling count, clamped at zero). -/
def pyRangeLen (start stop step : Int) : Nat :=
  if 0 < step then ((stop - start).toNat + step.toNat - 1) / step.toNat
  else ((start - stop).toNat + (-step).toNat - 1) / (-step).toNat

/-- Python `range(start, stop, step)` as a list, raising
`ValueError: range() arg 3 must not be zero` on a zero step exactly as
CPython does. -/
def pyRange (start stop step : Int) : Except PyError (List Int) :=
  if step = 0 then Except.error (PyError.valueError "range() arg 3 must not be zero")
  else Except.ok ((List.range (pyRangeLen start stop step)).map
    (fun (i : Nat) => start + step * (i : Int)))

/-- The keyword arguments of the probe call:
`fetch_function(limit=1, **self._clean_kwargs(kwargs, ["total_safe_limit", "limit"]))`. -/
def probeCall (kwargs : Kwargs) : Kwargs :=
  ("limit", PyVal.int 1) :: cleanKwargs kwargs ["total_safe_limit", "limit"]

/-- `batch_kwargs = self._clean_kwargs(kwargs, ["total_safe_limit", "offset"])`. -/
def batchKwargs (kwargs : Kwargs) : Kwargs :=
  cleanKwargs kwargs ["total_safe_limit", "offset"]

/-- The keyword arguments of one fan-out call:
`fetch_function(offset=offset, **batch_kwargs)`. -/
def batchCall (kwargs : Kwargs) (offset : Int) : Kwargs :=
  ("offset", PyVal.int offset) :: batchKwargs kwargs

/-- The offset-tiling step of `_fetch_all_with_pagination`, after the probe
reported `total`:

    total_safe_limit = kwargs.get("total_safe_limit", total_items)
    total_items = min(total_safe_limit, total_items)
    limit = kwargs.get("limit", DEFAULT_LIMIT)
    offsets = range(0, total_items, limit)
-/
def fanOutOffsets (kwargs : Kwargs) (total : Int) : Except PyError (List Int) :=
  let total_safe_limit := kwargs.getIntD "total_safe_limit" total
  let total_items := min total_safe_limit total
  let limit := kwargs.getIntD "limit" DEFAULT_LIMIT
  pyRange 0 total_items limit

/-- The join of the fan-out results as the synchronous variant performs it:
`[task.result() for task in tasks]` inside the `ThreadPoolExecutor` context
manager, whose exit waits for every submitted task, so every task runs and the
schedule-order-first exception is what re-raises, after all tasks settled.
The asynchronous variant agrees with this join on the success path and on
which calls are executed, but its `asyncio.gather` (default
`return_exceptions=False`) resolves with the temporally-first exception as
soon as the failing task settles, possibly while sibling tasks are still
unsettled — that resolution rule is embedded separately as
`asyncGatherResolved`; on the error path this function embeds the synchronous
contract only. -/
def gatherResults {ε α : Type} : List (Except ε α) → Except ε (List α)
  | [] => Except.ok []
  | Except.error e :: _ => Except.error e
  | Except.ok a :: rest => (gatherResults rest).map (fun l => a :: l)

/-- `_fetch_all_with_pagination(fetch_function, **kwargs)`, instrumented: the
first component is the returned value (or the escaping exception), the second
the ordered list of keyword-argument dictionaries the fetch capability is
invoked with (the probe first, then one fan-out call per scheduled offset).
Every scheduled fan-out call is listed even when some of them raise, because
both hosts execute every scheduled task. -/
def fetchAllTrace (fetch : FetchFun) (kwargs : Kwargs) :
    Except PyError (List PageResponse) × List Kwargs :=
  let probe := probeCall kwargs
  match fetch probe with
  | Except.error e => (Except.error e, [probe])
  | Except.ok initial_data =>
    let total_items := initial_data.getTotal
    if total_items = 0 then (Except.ok [], [probe])
    else
      match fanOutOffsets kwargs total_items with
      | Except.error e => (Except.error e, [probe])
      | Except.ok offsets =>
          (gatherResults (offsets.map (fun o => fetch (batchCall kwargs o))),
           probe :: offsets.map (batchCall kwargs))

/-- The value returned (or exception raised) by `_fetch_all_with_pagination`. -/
def fetchAllWithPagination (fetch : FetchFun) (kwargs : Kwargs) :
    Except PyError (List PageResponse) :=
  (fetchAllTrace fetch kwargs).1

/-- The ordered list of calls `_fetch_all_with_pagination` issues to the
fetch capability. -/
def fetchAllCalls (fetch : FetchFun) (kwargs : Kwargs) : List Kwargs :=
  (fetchAllTrace fetch kwargs).2

/-!
### The bounded-concurrency execution model

One scheduled fan-out fetch is a task; its observable life cycle is
pending → running → done.  Entering the running state consumes one unit of
the concurrency budget (one `asyncio.Semaphore` permit, or one free
`ThreadPoolExecutor` worker); completing returns the unit.  The result a task
stores when it completes is determined by the fetch capability and the task's
scheduled offset alone (`outcome`), so the model covers any interleaving the
host may produce.
-/

/-- The life cycle of one scheduled fan-out fetch. -/
inductive TaskStatus (α : Type) where
  | pending
  | running
  | done (r : α)
  deriving DecidableEq

/-- Whether a task is currently in flight. -/
def TaskStatus.isRunning {α : Type} : TaskStatus α → Bool
  | TaskStatus.running => true
  | _ => false

/-- A snapshot of one fan-out execution: the remaining concurrency budget
(free semaphore permits or idle workers) and the status of each task, in
schedule order. -/
structure SchedState (α : Type) where
  avail : Nat
  tasks : List (TaskStatus α)
  deriving DecidableEq

/-- The initial snapshot: the full budget is free and every one of the `n`
scheduled tasks is pending. -/
def initState (α : Type) (budget n : Nat) : SchedState α :=
  ⟨budget, List.replicate n TaskStatus.pending⟩

/-- One scheduler transition: a pending task may start whenever a budget unit
is free (taking it), and a running task may finish at any time (returning the
unit and recording its outcome).  The scheduler chooses freely among enabled
transitions, so every interleaving of starts and completions is a trace. -/
inductive SchedStep {α : Type} (outcome : Nat → α) :
    SchedState α → SchedState α → Prop where
  | start (s : SchedState α) (i : Nat)
      (hp : s.tasks.get? i = some TaskStatus.pending) (ha : 0 < s.avail) :
      SchedStep outcome s ⟨s.avail - 1, s.tasks.set i TaskStatus.running⟩
  | finish (s : SchedState α) (i : Nat)
      (hr : s.tasks.get? i = some TaskStatus.running) :
      SchedStep outcome s ⟨s.avail + 1, s.tasks.set i (TaskStatus.done (outcome i))⟩

/-- Reachability under scheduler transitions. -/
def SchedReach {α : Type} (outcome : Nat → α) :
    SchedState α → SchedState α → Prop :=
  Relation.ReflTransGen (SchedStep outcome)

/-- The number of tasks currently in flight. -/
def countRunning {α : Type} (tasks : List (TaskStatus α)) : Nat :=
  tasks.countP TaskStatus.isRunning

/-- Every task has settled with a recorded result: the point at which the
join (`gather` / the `result()` loop) can deliver. -/
def AllDone {α : Type} (tasks : List (TaskStatus α)) : Prop :=
  ∀ i < tasks.length, ∃ r, tasks.get? i = some (TaskStatus.done r)

/-- The join: read every task's recorded result, in schedule order.  `none`
while some task has not settled. -/
def collectResults {α : Type} (tasks : List (TaskStatus α)) : Option (List α) :=
  tasks.mapM (fun st =>
    match st with
    | TaskStatus.done r => some r
    | _ => none)

/-- The outcome of the `i`-th scheduled fan-out task of an invocation of
`_fetch_all_with_pagination`: the fetch capability applied to the call built
from the `i`-th scheduled offset. -/
def fanOutOutcome (fetch : FetchFun) (kwargs : Kwargs) (offsets : List Int)
    (i : Nat) : Except PyError PageResponse :=
  fetch (batchCall kwargs (offsets.getD i 0))

/-- The resolution rule of the asynchronous variant's join,
`await gather(*tasks)` with the default `return_exceptions=False`: the gather
future is resolved as soon as some child task has settled with an exception —
the awaiter receives that exception immediately, even while sibling tasks are
still pending or running — and otherwise only once every child has settled. -/
def asyncGatherResolved {α : Type}
    (tasks : List (TaskStatus (Except PyError α))) : Prop :=
  (∃ i e, tasks.get? i = some (TaskStatus.done (Except.error e))) ∨ AllDone tasks

/-!
### Concrete capabilities and filters used to exercise the theorems
-/

/-- A deterministic fetch capability backed by an immutable data set of 12
records: every call reports total 12 and echoes the requested offset in the
payload. -/
def exFetch : FetchFun :=
  fun kw => Except.ok ⟨some 12, (Kwargs.getIntD kw "offset" 0).toNat⟩

/-- Caller filters requesting pages of five records. -/
def exKwargs : Kwargs := [("limit", PyVal.int 5)]

/-- Caller filters capping aggregation at one record. -/
def exKwargsW : Kwargs := [("total_safe_limit", PyVal.int 1)]

/-- Caller filters requesting page size zero. -/
def exKwargs0 : Kwargs := [("limit", PyVal.int 0)]

/-- Caller filters requesting pages of one record. -/
def exKwargs1 : Kwargs := [("limit", PyVal.int 1)]

/-- A capability over two records whose page at offset 0 raises while every
other call (the probe included) succeeds. -/
def exFetchFailAt0 : FetchFun :=
  fun kw =>
    if Kwargs.getIntD kw "offset" (-1) = 0 then Except.error (PyError.fetchError 7)
    else Except.ok ⟨some 2, 0⟩

/-- A capability whose probe call (the one with limit 1) raises. -/
def exFetchFail : FetchFun :=
  fun kw =>
    if Kwargs.getIntD kw "limit" 0 = 1 then Except.error (PyError.fetchError 1)
    else Except.ok ⟨some 1, 0⟩

/-- A capability reporting an empty result set. -/
def exFetchEmpty : FetchFun :=
  fun _ => Except.ok ⟨some 0, 0⟩

/-- A capability whose response dictionary has no total entry at all. -/
def exFetchNoTotal : FetchFun :=
  fun _ => Except.ok ⟨none, 0⟩

/-- Replacing the element at an occupied index shifts `countP` by the
indicator difference of the old and new elements (additive form). -/
theorem countP_set_of_get? {α : Type} (p : α → Bool) :
    ∀ (l : List α) (i : Nat) (x v : α), l.get? i = some x →
      (l.set i v).countP p + (if p x then 1 else 0)
        = l.countP p + (if p v then 1 else 0) := by
  intro l
  induction l with
  | nil => intro i x v h; simp at h
  | cons a t ih =>
    intro i x v h
    cases i with
    | zero =>
      simp only [List.get?] at h
      cases h
      simp only [List.set, List.countP_cons]
      omega
    | succ j =>
      simp only [List.get?] at h
      have := ih j x v h
      simp only [List.set, List.countP_cons]
      omega

/-- A list of `n` pending tasks has no task in flight. -/
theorem countRunning_replicate_pending {α : Type} (n : Nat) :
    countRunning (List.replicate n (TaskStatus.pending : TaskStatus α)) = 0 := by
  unfold countRunning
  rw [List.countP_eq_zero]
  intro a ha
  rw [List.eq_of_mem_replicate ha]
  simp [TaskStatus.isRunning]

/-- One transition preserves the semaphore accounting equation. -/
theorem sched_step_invariant {α : Type} {outcome : Nat → α} {s t : SchedState α}
    (h : SchedStep outcome s t) (N : Nat)
    (inv : s.avail + countRunning s.tasks = N) :
    t.avail + countRunning t.tasks = N := by
  cases h with
  | start i hp ha =>
    have hc := countP_set_of_get? TaskStatus.isRunning s.tasks i
      TaskStatus.pending TaskStatus.running hp
    simp [TaskStatus.isRunning] at hc
    unfold countRunning at inv ⊢
    dsimp only
    omega
  | finish i hr =>
    have hc := countP_set_of_get? TaskStatus.isRunning s.tasks i
      TaskStatus.running (TaskStatus.done (outcome i)) hr
    simp [TaskStatus.isRunning] at hc
    unfold countRunning at inv ⊢
    dsimp only
    omega

/-- Semaphore invariant: along every trace, free budget plus in-flight tasks
is exactly the initial budget. -/
theorem sched_invariant {α : Type} (outcome : Nat → α) (N n : Nat)
    (s : SchedState α) (h : SchedReach outcome (initState α N n) s) :
    s.avail + countRunning s.tasks = N := by
  induction h with
  | refl => simp [initState, countRunning_replicate_pending]
  | tail _ hstep ih => exact sched_step_invariant hstep N ih

/-- One transition preserves the number of scheduled tasks. -/
theorem sched_step_length {α : Type} {outcome : Nat → α} {s t : SchedState α}
    (h : SchedStep outcome s t) : t.tasks.length = s.tasks.length := by
  cases h with
  | start i hp ha => simp
  | finish i hr => simp

/-- The number of scheduled tasks never changes along a trace. -/
theorem sched_length {α : Type} (outcome : Nat → α) (N n : Nat)
    (s : SchedState α) (h : SchedReach outcome (initState α N n) s) :
    s.tasks.length = n := by
  induction h with
  | refl => simp [initState]
  | tail _ hstep ih => rw [sched_step_length hstep, ih]

/-- One transition preserves correctness of every settled task's result. -/
theorem sched_step_done_eq {α : Type} {outcome : Nat → α} {s t : SchedState α}
    (h : SchedStep outcome s t)
    (prev : ∀ i r, s.tasks.get? i = some (TaskStatus.done r) → r = outcome i) :
    ∀ i r, t.tasks.get? i = some (TaskStatus.done r) → r = outcome i := by
  cases h with
  | start j hp ha =>
    intro i r hir
    by_cases hij : j = i
    · subst hij
      rcases Nat.lt_or_ge j s.tasks.length with hlt | hge
      · rw [List.get?_set_eq_of_lt _ hlt] at hir
        exact absurd hir (by simp)
      · rw [List.get?_eq_none.2 (by simpa using hge)] at hir
        exact absurd hir (by simp)
    · rw [List.get?_set_ne _ _ hij] at hir
      exact prev i r hir
  | finish j hr =>
    intro i r hir
    by_cases hij : j = i
    · subst hij
      rcases Nat.lt_or_ge j s.tasks.length with hlt | hge
      · rw [List.get?_set_eq_of_lt _ hlt] at hir
        simp only [Option.some.injEq] at hir
        cases hir
        rfl
      · rw [List.get?_eq_none.2 (by simpa using hge)] at hir
        exact absurd hir (by simp)
    · rw [List.get?_set_ne _ _ hij] at hir
      exact prev i r hir

/-- Along every trace, a settled task's recorded result is the outcome
determined by its own scheduled call: completion order cannot change it. -/
theorem sched_done_eq {α : Type} (outcome : Nat → α) (N n : Nat)
    (s : SchedState α) (h : SchedReach outcome (initState α N n) s) :
    ∀ i r, s.tasks.get? i = some (TaskStatus.done r) → r = outcome i := by
  induction h with
  | refl =>
    intro i r hir
    exfalso
    have hmem : TaskStatus.done r ∈
        List.replicate n (TaskStatus.pending : TaskStatus α) := by
      have := List.get?_mem hir
      simpa [initState] using this
    have := List.eq_of_mem_replicate hmem
    simp at this
  | tail _ hstep ih => exact sched_step_done_eq hstep ih

/-- Joining a fully settled list of tasks yields exactly the mapped values. -/
theorem collectResults_map_done {α β : Type} (f : β → α) (l : List β) :
    collectResults (l.map (fun x => TaskStatus.done (f x))) = some (l.map f) := by
  induction l with
  | nil => rfl
  | cons a t ih =>
    simp only [List.map_cons, collectResults, List.mapM_cons] at ih ⊢
    rw [ih]
    rfl

/-- Pointwise description of a fully settled state reached from the start:
task `i` has recorded `outcome i`. -/
theorem sched_final_tasks {α : Type} (outcome : Nat → α) (N n : Nat)
    (s : SchedState α) (h : SchedReach outcome (initState α N n) s)
    (hdone : AllDone s.tasks) :
    s.tasks = (List.range n).map (fun i => TaskStatus.done (outcome i)) := by
  have hlen := sched_length outcome N n s h
  apply List.ext
  intro i
  by_cases hi : i < n
  · obtain ⟨r, hr⟩ := hdone i (by omega)
    have := sched_done_eq outcome N n s h i r hr
    subst this
    rw [hr, List.get?_eq_getElem?, List.getElem?_map,
      List.getElem?_range hi]
    rfl
  · rw [List.get?_eq_none.2 (by omega), List.get?_eq_none.2 (by simp; omega)]

/-- The join of any complete trace delivers the schedule-order outcomes. -/
theorem sched_collect {α : Type} (outcome : Nat → α) (N n : Nat)
    (s : SchedState α) (h : SchedReach outcome (initState α N n) s)
    (hdone : AllDone s.tasks) :
    collectResults s.tasks = some ((List.range n).map outcome) := by
  rw [sched_final_tasks outcome N n s h hdone]
  exact collectResults_map_done outcome (List.range n)

/-!
### Lemmas about the keyword-argument dictionary and the offset tiling
-/

/-- Filtering out reserved keys does not change the lookup of a key that is
not reserved. -/
theorem find?_filter_not_removed (t : List (String × PyVal))
    (removeKeys : List String) (key : String)
    (h : removeKeys.contains key = false) :
    List.find? (fun kv => kv.1 == key)
        (List.filter (fun kv => !(removeKeys.contains kv.1)) t)
      = List.find? (fun kv => kv.1 == key) t := by
  induction t with
  | nil => rfl
  | cons kv tl ih =>
    rw [List.filter_cons]
    cases hk : removeKeys.contains kv.1 with
    | true =>
      have hne : (kv.1 == key) = false := by
        cases hbe : kv.1 == key
        · rfl
        · have heq : kv.1 = key := by simpa using hbe
          rw [heq, h] at hk
          exact absurd hk (by simp)
      rw [if_neg (by simp), ih,
        @List.find?_cons_of_neg _ (fun x => x.1 == key) kv tl (by simp [hne])]
    | false =>
      rw [if_pos (by simp [hk])]
      cases hbe : kv.1 == key with
      | true =>
        rw [@List.find?_cons_of_pos _ (fun x => x.1 == key) kv _ hbe,
          @List.find?_cons_of_pos _ (fun x => x.1 == key) kv tl hbe]
      | false =>
        rw [@List.find?_cons_of_neg _ (fun x => x.1 == key) kv _ (by simp [hbe]),
          @List.find?_cons_of_neg _ (fun x => x.1 == key) kv tl (by simp [hbe]), ih]

/-- `_clean_kwargs` preserves the lookup of every non-removed key. -/
theorem get?_cleanKwargs (kwargs : Kwargs) (removeKeys : List String)
    (key : String) (h : removeKeys.contains key = false) :
    Kwargs.get? (cleanKwargs kwargs removeKeys) key = Kwargs.get? kwargs key := by
  unfold Kwargs.get? cleanKwargs
  rw [find?_filter_not_removed kwargs removeKeys key h]

/-- Index below the ceiling-division page count iff the corresponding tile
start is below the total (pure `Nat` form). -/
theorem nat_lt_ceil_div_iff (t l i : Nat) (hl : 0 < l) :
    i < (t + l - 1) / l ↔ i * l < t := by
  rw [Nat.lt_iff_add_one_le, Nat.le_div_iff_mul_le hl]
  have hexp : (i + 1) * l = i * l + l := by ring
  rw [hexp]
  omega

/-- Index below the length of `range(0, T, L)` iff `L * i < T`, for a
positive step `L`. -/
theorem lt_pyRangeLen_iff (T L : Int) (hL : 1 ≤ L) (i : Nat) :
    i < pyRangeLen 0 T L ↔ L * (i : Int) < T := by
  unfold pyRangeLen
  rw [if_pos (by omega), show T - 0 = T by ring]
  rw [nat_lt_ceil_div_iff T.toNat L.toNat i (by omega)]
  have hcast : L * (i : Int) = ((i * L.toNat : Nat) : Int) := by
    push_cast
    have hLL : ((L.toNat : Int)) = L := by omega
    rw [hLL]
    ring
  rw [hcast]
  omega

/-- For a positive caller `limit`, the tiling step succeeds and produces the
arithmetic progression `0, L, 2L, ...` of length `⌈effectiveTotal / L⌉`. -/
theorem fanOutOffsets_ok (kwargs : Kwargs) (total L : Int)
    (hlimit : kwargs.getIntD "limit" DEFAULT_LIMIT = L) (hL : 1 ≤ L) :
    fanOutOffsets kwargs total
      = Except.ok ((List.range (pyRangeLen 0
          (min (kwargs.getIntD "total_safe_limit" total) total) L)).map
          (fun (i : Nat) => L * (i : Int))) := by
  unfold fanOutOffsets pyRange
  rw [hlimit, if_neg (by omega)]
  congr 1
  simp

/-- Membership in the tiling: exactly the multiples of `L` below `T`. -/
theorem mem_tiling_iff (T L : Int) (hL : 1 ≤ L) (o : Int) :
    (o ∈ (List.range (pyRangeLen 0 T L)).map (fun (i : Nat) => L * (i : Int))) ↔
      ∃ k : Nat, o = L * (k : Int) ∧ o < T := by
  constructor
  · intro hmem
    obtain ⟨i, hi, hoe⟩ := List.mem_map.1 hmem
    refine ⟨i, hoe.symm, ?_⟩
    rw [← hoe]
    exact (lt_pyRangeLen_iff T L hL i).1 (List.mem_range.1 hi)
  · rintro ⟨k, rfl, hlt⟩
    exact List.mem_map.2
      ⟨k, List.mem_range.2 ((lt_pyRangeLen_iff T L hL k).2 hlt), rfl⟩

/-- The tiling is strictly increasing. -/
theorem tiling_pairwise (T L : Int) (hL : 1 ≤ L) :
    ((List.range (pyRangeLen 0 T L)).map
      (fun (i : Nat) => L * (i : Int))).Pairwise (fun a b => a < b) := by
  refine List.Pairwise.map _ ?_ (List.pairwise_lt_range _)
  intro a b hab
  have hab2 : (a : Int) < (b : Int) := by exact_mod_cast hab
  exact mul_lt_mul_of_pos_left hab2 (by omega)

/-- The `i`-th tile start is `L * i`. -/
theorem tiling_get? (T L : Int) (i : Nat) (hi : i < pyRangeLen 0 T L) :
    ((List.range (pyRangeLen 0 T L)).map
      (fun (j : Nat) => L * (j : Int))).get? i = some (L * (i : Int)) := by
  rw [List.get?_eq_getElem?, List.getElem?_map, List.getElem?_range hi]
  rfl

/-- Distinct offsets give distinct fan-out calls. -/
theorem batchCall_injective (kwargs : Kwargs) :
    Function.Injective (batchCall kwargs) := by
  intro a b h
  unfold batchCall at h
  injection h with h1 h2
  injection h1 with h3 h4
  injection h4

/-- Mapping the schedule index through `getD` recovers a plain map. -/
theorem range_map_getD {β γ : Type} (g : β → γ) (d : β) (l : List β) :
    (List.range l.length).map (fun i => g (l.getD i d)) = l.map g := by
  induction l with
  | nil => rfl
  | cons a t ih =>
    rw [List.length_cons, List.range_succ_eq_map, List.map_cons, List.map_map]
    have hfun : ((fun i => g ((a :: t).getD i d)) ∘ Nat.succ)
        = (fun i => g (t.getD i d)) := by
      funext i
      rfl
    rw [List.getD_cons_zero, hfun, ih, List.map_cons]

/-- If some scheduled fetch raised, the join raises (a single exception). -/
theorem gatherResults_of_error {ε α : Type} (l : List (Except ε α))
    (h : ∃ x ∈ l, ∃ e, x = Except.error e) :
    ∃ e, gatherResults l = Except.error e := by
  induction l with
  | nil => simp at h
  | cons x tl ih =>
    cases x with
    | error e => exact ⟨e, rfl⟩
    | ok a =>
      obtain ⟨y, hy, e, he⟩ := h
      rcases List.mem_cons.1 hy with hhd | htl
      · rw [hhd] at he
        exact absurd he (by simp)
      · obtain ⟨e2, he2⟩ := ih ⟨y, htl, e, he⟩
        refine ⟨e2, ?_⟩
        show (gatherResults tl).map (fun l => a :: l) = Except.error e2
        rw [he2]
        rfl

/-!
### Unfolding lemmas for the four control-flow branches of
`_fetch_all_with_pagination`
-/

/-- A failing probe aborts the invocation with that exception; the probe is
the only call issued. -/
theorem fetchAllTrace_probe_error (fetch : FetchFun) (kwargs : Kwargs)
    (e : PyError) (hprobe : fetch (probeCall kwargs) = Except.error e) :
    fetchAllTrace fetch kwargs = (Except.error e, [probeCall kwargs]) := by
  simp only [fetchAllTrace]
  rw [hprobe]

/-- A zero reported total returns the empty list after the probe alone. -/
theorem fetchAllTrace_total_zero (fetch : FetchFun) (kwargs : Kwargs)
    (r : PageResponse) (hprobe : fetch (probeCall kwargs) = Except.ok r)
    (hzero : r.getTotal = 0) :
    fetchAllTrace fetch kwargs = (Except.ok [], [probeCall kwargs]) := by
  simp only [fetchAllTrace]
  rw [hprobe]
  simp [hzero]

/-- A failing tiling step (zero page size) raises before any fan-out call. -/
theorem fetchAllTrace_range_error (fetch : FetchFun) (kwargs : Kwargs)
    (r : PageResponse) (e : PyError)
    (hprobe : fetch (probeCall kwargs) = Except.ok r)
    (hne : r.getTotal ≠ 0)
    (hoff : fanOutOffsets kwargs r.getTotal = Except.error e) :
    fetchAllTrace fetch kwargs = (Except.error e, [probeCall kwargs]) := by
  simp only [fetchAllTrace]
  rw [hprobe]
  simp [hne, hoff]

/-- With a nonzero total and a well-defined tiling, the invocation issues the
probe and then one call per scheduled offset, and joins the results. -/
theorem fetchAllTrace_fanout (fetch : FetchFun) (kwargs : Kwargs)
    (r : PageResponse) (offsets : List Int)
    (hprobe : fetch (probeCall kwargs) = Except.ok r)
    (hne : r.getTotal ≠ 0)
    (hoff : fanOutOffsets kwargs r.getTotal = Except.ok offsets) :
    fetchAllTrace fetch kwargs
      = (gatherResults (offsets.map (fun o => fetch (batchCall kwargs o))),
         probeCall kwargs :: offsets.map (batchCall kwargs)) := by
  simp only [fetchAllTrace]
  rw [hprobe]
  simp [hne, hoff]

/-- Lookup under a cons whose key differs from the requested key. -/
theorem get?_cons_ne (k : String) (v : PyVal) (t : List (String × PyVal))
    (key : String) (h : (k == key) = false) :
    Kwargs.get? ((k, v) :: t) key = Kwargs.get? t key := by
  unfold Kwargs.get?
  rw [@List.find?_cons_of_neg _ (fun x => x.1 == key) (k, v) t (by simp [h])]

/-- Lookup of a removed key in a cleaned dictionary yields nothing. -/
theorem get?_cleanKwargs_removed (kwargs : Kwargs) (removeKeys : List String)
    (key : String) (h : removeKeys.contains key = true) :
    Kwargs.get? (cleanKwargs kwargs removeKeys) key = none := by
  unfold Kwargs.get? cleanKwargs
  rw [List.find?_eq_none.2]
  · rfl
  · intro kv hkv
    have hmem := (List.mem_filter.1 hkv).2
    intro hbe
    have heq : kv.1 = key := by simpa using hbe
    rw [heq, h] at hmem
    simp at hmem

/-!
### The claims
-/

/-- C1: for a probe reporting `total > 0` and an integer page size `L ≥ 1`,
the fan-out phase fetches exactly the offsets `0, L, 2L, ...` strictly below
`min(total_safe_limit ?? total, total)`, in ascending order, each exactly once
with no duplicates and no gaps, and the cap never exceeds the server-reported
total even when `total_safe_limit` is larger. -/
theorem offsets_tile_effective_total (fetch : FetchFun) (kwargs : Kwargs)
    (r : PageResponse) (total L : Int)
    (hprobe : fetch (probeCall kwargs) = Except.ok r)
    (htotal : r.getTotal = total) (hpos : 0 < total)
    (hlimit : kwargs.getIntD "limit" DEFAULT_LIMIT = L) (hL : 1 ≤ L) :
    ∃ offsets : List Int,
      fanOutOffsets kwargs total = Except.ok offsets ∧
      fetchAllCalls fetch kwargs
        = probeCall kwargs :: offsets.map (batchCall kwargs) ∧
      (∀ o : Int, o ∈ offsets ↔ ∃ k : Nat, o = L * (k : Int) ∧
        o < min (kwargs.getIntD "total_safe_limit" total) total) ∧
      offsets.Pairwise (fun a b => a < b) ∧
      (offsets.map (batchCall kwargs)).Nodup ∧
      min (kwargs.getIntD "total_safe_limit" total) total ≤ total := by
  have hok := fanOutOffsets_ok kwargs total L hlimit hL
  refine ⟨_, hok, ?_, ?_, ?_, ?_, min_le_right _ _⟩
  · have htr := fetchAllTrace_fanout fetch kwargs r _ hprobe
      (by rw [htotal]; omega) (by rw [htotal]; exact hok)
    unfold fetchAllCalls
    rw [htr]
  · intro o
    exact mem_tiling_iff _ L hL o
  · exact tiling_pairwise _ L hL
  · refine List.Nodup.map (batchCall_injective kwargs) ?_
    exact (tiling_pairwise _ L hL).imp (fun hab => ne_of_lt hab)

/-- C1 witness: total 12, page size 5. -/
theorem offsets_tile_effective_total_witness :
    ∃ offsets : List Int,
      fanOutOffsets exKwargs 12 = Except.ok offsets ∧
      fetchAllCalls exFetch exKwargs
        = probeCall exKwargs :: offsets.map (batchCall exKwargs) ∧
      (∀ o : Int, o ∈ offsets ↔ ∃ k : Nat, o = 5 * (k : Int) ∧
        o < min (Kwargs.getIntD exKwargs "total_safe_limit" 12) 12) ∧
      offsets.Pairwise (fun a b => a < b) ∧
      (offsets.map (batchCall exKwargs)).Nodup ∧
      min (Kwargs.getIntD exKwargs "total_safe_limit" 12) 12 ≤ 12 :=
  offsets_tile_effective_total exFetch exKwargs ⟨some 12, 0⟩ 12 5
    (by decide) (by decide) (by decide) (by decide) (by decide)

/-- C2 counterexample: with caller kwargs `{"offset": 20}`, the probe call
still carries `offset = 20` (only `total_safe_limit` and `limit` are removed),
so the claim that the offset key is dropped from the probe call is false; the
first call the invocation issues is exactly that probe call. -/
theorem probe_forwards_offset_cex :
    Kwargs.get? (probeCall [("offset", PyVal.int 20)]) "offset"
        = some (PyVal.int 20) ∧
    Kwargs.get? (probeCall [("offset", PyVal.int 20)]) "offset" ≠ none ∧
    fetchAllCalls exFetchEmpty [("offset", PyVal.int 20)]
        = [probeCall [("offset", PyVal.int 20)]] := by
  refine ⟨by decide, by decide, ?_⟩
  decide

/-- C2 (amended): the probe call uses `limit = 1` and has `total_safe_limit`
and `limit` removed from the caller kwargs, but the caller's `offset` is
forwarded to the probe unchanged; the probe is the first call issued. -/
theorem probe_call_shape (fetch : FetchFun) (kwargs : Kwargs) :
    (fetchAllCalls fetch kwargs).head? = some (probeCall kwargs) ∧
    Kwargs.get? (probeCall kwargs) "limit" = some (PyVal.int 1) ∧
    Kwargs.get? (probeCall kwargs) "total_safe_limit" = none ∧
    Kwargs.get? (probeCall kwargs) "offset" = Kwargs.get? kwargs "offset" := by
  refine ⟨?_, ?_, ?_, ?_⟩
  · unfold fetchAllCalls
    cases hp : fetch (probeCall kwargs) with
    | error e => rw [fetchAllTrace_probe_error fetch kwargs e hp]; rfl
    | ok r =>
      by_cases hz : r.getTotal = 0
      · rw [fetchAllTrace_total_zero fetch kwargs r hp hz]; rfl
      · cases ho : fanOutOffsets kwargs r.getTotal with
        | error e => rw [fetchAllTrace_range_error fetch kwargs r e hp hz ho]; rfl
        | ok offsets => rw [fetchAllTrace_fanout fetch kwargs r offsets hp hz ho]; rfl
  · unfold probeCall Kwargs.get?
    rw [@List.find?_cons_of_pos _ (fun x => x.1 == "limit")
      ("limit", PyVal.int 1) _ (by decide)]
    rfl
  · unfold probeCall
    rw [get?_cons_ne _ _ _ _ (by decide)]
    exact get?_cleanKwargs_removed kwargs ["total_safe_limit", "limit"]
      "total_safe_limit" (by decide)
  · unfold probeCall
    rw [get?_cons_ne _ _ _ _ (by decide)]
    exact get?_cleanKwargs kwargs ["total_safe_limit", "limit"] "offset" (by decide)

/-- C3: for any complete schedule of the fan-out (any interleaving of starts
and completions permitted by the budget), the joined result sequence lists
the page fetched for each scheduled offset in ascending schedule order,
independent of completion order. -/
theorem results_follow_schedule_order (fetch : FetchFun) (kwargs : Kwargs)
    (total : Int) (offsets : List Int) (N : Nat)
    (s : SchedState (Except PyError PageResponse))
    (hoff : fanOutOffsets kwargs total = Except.ok offsets)
    (hreach : SchedReach (fanOutOutcome fetch kwargs offsets)
      (initState (Except PyError PageResponse) N offsets.length) s)
    (hdone : AllDone s.tasks) :
    collectResults s.tasks
      = some (offsets.map (fun o => fetch (batchCall kwargs o))) := by
  rw [sched_collect (fanOutOutcome fetch kwargs offsets) N offsets.length s
    hreach hdone]
  congr 1
  unfold fanOutOutcome
  exact range_map_getD (fun o => fetch (batchCall kwargs o)) 0 offsets

/-- C3 witness: one scheduled offset, a two-step trace (start then finish). -/
theorem results_follow_schedule_order_witness :
    collectResults
        (SchedState.tasks
          ⟨2, [TaskStatus.done (fanOutOutcome exFetch exKwargsW [0] 0)]⟩)
      = some (([0] : List Int).map (fun o => exFetch (batchCall exKwargsW o))) := by
  refine results_follow_schedule_order exFetch exKwargsW 12 [0] 2
    ⟨2, [TaskStatus.done (fanOutOutcome exFetch exKwargsW [0] 0)]⟩
    (by decide) ?_ ?_
  · exact Relation.ReflTransGen.tail
      (Relation.ReflTransGen.single
        (SchedStep.start ⟨2, [TaskStatus.pending]⟩ 0 rfl (by decide)))
      (SchedStep.finish ⟨1, [TaskStatus.running]⟩ 0 rfl)
  · intro i hi
    have h0 : i = 0 := by
      simpa using hi
    subst h0
    exact ⟨fanOutOutcome exFetch exKwargsW [0] 0, rfl⟩

/-- C4: along every trace of a fan-out execution with budget `N`, at no point
are more than `N` page fetches simultaneously in flight: a pending fetch can
only start when the semaphore (or worker pool) has a free unit. -/
theorem inflight_fetches_bounded (fetch : FetchFun) (kwargs : Kwargs)
    (total : Int) (offsets : List Int) (N : Nat)
    (s : SchedState (Except PyError PageResponse))
    (hoff : fanOutOffsets kwargs total = Except.ok offsets)
    (hreach : SchedReach (fanOutOutcome fetch kwargs offsets)
      (initState (Except PyError PageResponse) N offsets.length) s) :
    countRunning s.tasks ≤ N := by
  have h := sched_invariant (fanOutOutcome fetch kwargs offsets) N
    offsets.length s hreach
  omega

/-- C4 witness: after one started task the in-flight count is within the
budget of 2. -/
theorem inflight_fetches_bounded_witness :
    countRunning
      (SchedState.tasks
        (⟨1, [TaskStatus.running]⟩ : SchedState (Except PyError PageResponse)))
      ≤ 2 :=
  inflight_fetches_bounded exFetch exKwargsW 12 [0] 2
    ⟨1, [TaskStatus.running]⟩ (by decide)
    (Relation.ReflTransGen.single
      (SchedStep.start ⟨2, [TaskStatus.pending]⟩ 0 rfl (by decide)))

/-- C5: a probe reporting total 0 makes the invocation return the empty list
with the probe as the only fetch call ever issued. -/
theorem total_zero_returns_empty (fetch : FetchFun) (kwargs : Kwargs)
    (r : PageResponse) (hprobe : fetch (probeCall kwargs) = Except.ok r)
    (hzero : r.getTotal = 0) :
    fetchAllWithPagination fetch kwargs = Except.ok [] ∧
    fetchAllCalls fetch kwargs = [probeCall kwargs] := by
  have h := fetchAllTrace_total_zero fetch kwargs r hprobe hzero
  unfold fetchAllWithPagination fetchAllCalls
  rw [h]
  exact ⟨rfl, rfl⟩

/-- C5 witness. -/
theorem total_zero_returns_empty_witness :
    fetchAllWithPagination exFetchEmpty [] = Except.ok [] ∧
    fetchAllCalls exFetchEmpty [] = [probeCall []] :=
  total_zero_returns_empty exFetchEmpty [] ⟨some 0, 0⟩ (by decide) (by decide)

/-- C6 counterexample: in the asynchronous variant the fan-out join is
`await gather(*tasks)` with the default `return_exceptions=False`, whose
future resolves with a child's exception the moment that child settles.
Concrete run (total 2, limit 1, fetch raising at offset 0): after the
schedule start task 0, settle task 0, the gather future is already resolved —
the caller receives the exception — while the fetch for offset 1 is still
pending, i.e. before all scheduled fetches have settled.  This refutes the
claim that a fan-out failure surfaces only after all scheduled fetches for
the call have settled. -/
theorem async_failure_surfaces_before_settled_cex :
    exFetchFailAt0 (probeCall exKwargs1) = Except.ok ⟨some 2, 0⟩ ∧
    fanOutOffsets exKwargs1 2 = Except.ok [0, 1] ∧
    fanOutOutcome exFetchFailAt0 exKwargs1 [0, 1] 0
        = Except.error (PyError.fetchError 7) ∧
    SchedReach (fanOutOutcome exFetchFailAt0 exKwargs1 [0, 1])
      (initState (Except PyError PageResponse) 10 2)
      ⟨10, [TaskStatus.done (Except.error (PyError.fetchError 7)),
            TaskStatus.pending]⟩ ∧
    asyncGatherResolved
      ([TaskStatus.done (Except.error (PyError.fetchError 7)),
        TaskStatus.pending] : List (TaskStatus (Except PyError PageResponse))) ∧
    ¬ AllDone
      ([TaskStatus.done (Except.error (PyError.fetchError 7)),
        TaskStatus.pending] : List (TaskStatus (Except PyError PageResponse))) := by
  refine ⟨by decide, by decide, by decide, ?_, ?_, ?_⟩
  · exact Relation.ReflTransGen.tail
      (Relation.ReflTransGen.single
        (SchedStep.start ⟨10, [TaskStatus.pending, TaskStatus.pending]⟩ 0 rfl
          (by decide)))
      (SchedStep.finish ⟨9, [TaskStatus.running, TaskStatus.pending]⟩ 0 rfl)
  · exact Or.inl ⟨0, PyError.fetchError 7, rfl⟩
  · intro hall
    obtain ⟨rr, hrr⟩ := hall 1 (by decide)
    exact absurd hrr (by simp)

/-- C6 (amended): a failing probe propagates its exception with no retry and
no fan-out call; a fan-out failure never yields a partial result — every
scheduled fan-out call is still issued and the caller receives a single
exception, not an aggregate of concurrent failures.  When that failure
surfaces is variant-specific: the synchronous join delivers it only after all
scheduled fetches settle (the join `gatherResults` embeds this full-join
contract), while the asynchronous `gather` resolves as soon as the failing
fetch settles — for any failing offset among at least two scheduled ones some
schedule delivers the failure while a sibling fetch is still unsettled. -/
theorem failure_propagates_single_error (fetch : FetchFun) (kwargs : Kwargs) :
    (∀ e, fetch (probeCall kwargs) = Except.error e →
      fetchAllWithPagination fetch kwargs = Except.error e ∧
      fetchAllCalls fetch kwargs = [probeCall kwargs]) ∧
    (∀ r offsets, fetch (probeCall kwargs) = Except.ok r → r.getTotal ≠ 0 →
      fanOutOffsets kwargs r.getTotal = Except.ok offsets →
      fetchAllCalls fetch kwargs
          = probeCall kwargs :: offsets.map (batchCall kwargs) ∧
      ((∃ o ∈ offsets, ∃ e, fetch (batchCall kwargs o) = Except.error e) →
        ∃ e, fetchAllWithPagination fetch kwargs = Except.error e)) ∧
    (∀ (offsets : List Int) (j : Nat) (e : PyError) (N : Nat),
      fanOutOutcome fetch kwargs offsets j = Except.error e →
      j < offsets.length → 2 ≤ offsets.length → 0 < N →
      ∃ s, SchedReach (fanOutOutcome fetch kwargs offsets)
          (initState (Except PyError PageResponse) N offsets.length) s ∧
        asyncGatherResolved s.tasks ∧ ¬ AllDone s.tasks) := by
  refine ⟨?_, ?_, ?_⟩
  · intro e hprobe
    have h := fetchAllTrace_probe_error fetch kwargs e hprobe
    unfold fetchAllWithPagination fetchAllCalls
    rw [h]
    exact ⟨rfl, rfl⟩
  · intro r offsets hprobe hne hoff
    have h := fetchAllTrace_fanout fetch kwargs r offsets hprobe hne hoff
    unfold fetchAllWithPagination fetchAllCalls
    rw [h]
    refine ⟨rfl, ?_⟩
    rintro ⟨o, ho, e, he⟩
    refine gatherResults_of_error _ ?_
    exact ⟨fetch (batchCall kwargs o), List.mem_map.2 ⟨o, ho, rfl⟩, e, he⟩
  · intro offsets j e N he hj hlen hN
    have hjl : j < (List.replicate offsets.length
        (TaskStatus.pending : TaskStatus (Except PyError PageResponse))).length := by
      simpa using hj
    have hp : (initState (Except PyError PageResponse) N offsets.length).tasks.get? j
        = some TaskStatus.pending := by
      unfold initState
      rw [List.get?_eq_getElem?, List.getElem?_replicate, if_pos hj]
    refine ⟨_, Relation.ReflTransGen.tail
        (Relation.ReflTransGen.single
          (SchedStep.start (initState (Except PyError PageResponse) N offsets.length)
            j hp hN))
        (SchedStep.finish _ j ?_), ?_, ?_⟩
    · show ((initState (Except PyError PageResponse) N offsets.length).tasks.set j
          TaskStatus.running).get? j = some TaskStatus.running
      unfold initState
      exact List.get?_set_eq_of_lt TaskStatus.running hjl
    · refine Or.inl ⟨j, e, ?_⟩
      show (((initState (Except PyError PageResponse) N offsets.length).tasks.set j
          TaskStatus.running).set j
          (TaskStatus.done (fanOutOutcome fetch kwargs offsets j))).get? j
        = some (TaskStatus.done (Except.error e))
      rw [he]
      refine List.get?_set_eq_of_lt _ ?_
      simpa [initState] using hj
    · intro hall
      by_cases h0 : j = 0
      · obtain ⟨rr, hrr⟩ := hall 1 (by simp [initState]; omega)
        have hne1 : j ≠ 1 := by omega
        rw [List.get?_set_ne _ _ hne1, List.get?_set_ne _ _ hne1] at hrr
        unfold initState at hrr
        rw [List.get?_eq_getElem?, List.getElem?_replicate, if_pos (by omega)] at hrr
        exact absurd hrr (by simp)
      · obtain ⟨rr, hrr⟩ := hall 0 (by simp [initState]; omega)
        rw [List.get?_set_ne _ _ h0, List.get?_set_ne _ _ h0] at hrr
        unfold initState at hrr
        rw [List.get?_eq_getElem?, List.getElem?_replicate, if_pos (by omega)] at hrr
        exact absurd hrr (by simp)

/-- C6 witness: a capability whose probe raises. -/
theorem failure_propagates_single_error_witness :
    fetchAllWithPagination exFetchFail [] = Except.error (PyError.fetchError 1) ∧
    fetchAllCalls exFetchFail [] = [probeCall []] :=
  (failure_propagates_single_error exFetchFail []).1 (PyError.fetchError 1)
    (by decide)

/-- C7: the probe call always carries `limit = 1` regardless of the caller's
limit; the caller's limit is forwarded unchanged to every fan-out call (with
the default 10 governing the tiling when absent); and the scheduled offsets
step by exactly the effective limit `L`. -/
theorem probe_limit_one_caller_limit_fanout (kwargs : Kwargs)
    (total L : Int) (offsets : List Int)
    (hlimit : kwargs.getIntD "limit" DEFAULT_LIMIT = L) (hL : 1 ≤ L)
    (hoff : fanOutOffsets kwargs total = Except.ok offsets) :
    Kwargs.get? (probeCall kwargs) "limit" = some (PyVal.int 1) ∧
    (∀ o : Int,
      Kwargs.get? (batchCall kwargs o) "limit" = Kwargs.get? kwargs "limit") ∧
    (∀ i : Nat, i < offsets.length → offsets.get? i = some (L * (i : Int))) := by
  refine ⟨?_, ?_, ?_⟩
  · unfold probeCall Kwargs.get?
    rw [@List.find?_cons_of_pos _ (fun x => x.1 == "limit")
      ("limit", PyVal.int 1) _ (by decide)]
    rfl
  · intro o
    unfold batchCall batchKwargs
    rw [get?_cons_ne _ _ _ _ (by decide)]
    exact get?_cleanKwargs kwargs ["total_safe_limit", "offset"] "limit" (by decide)
  · have hok := fanOutOffsets_ok kwargs total L hlimit hL
    rw [hoff] at hok
    have heq := Except.ok.inj hok
    subst heq
    intro i hi
    rw [List.length_map, List.length_range] at hi
    exact tiling_get? _ L i hi

/-- C7 witness: caller limit 5, total 12, offsets 0, 5, 10. -/
theorem probe_limit_one_caller_limit_fanout_witness :
    Kwargs.get? (probeCall exKwargs) "limit" = some (PyVal.int 1) ∧
    (∀ o : Int,
      Kwargs.get? (batchCall exKwargs o) "limit" = Kwargs.get? exKwargs "limit") ∧
    (∀ i : Nat, i < ([0, 5, 10] : List Int).length →
      ([0, 5, 10] : List Int).get? i = some (5 * (i : Int))) :=
  probe_limit_one_caller_limit_fanout exKwargs 12 5 [0, 5, 10]
    (by decide) (by decide) (by decide)

/-- C8: the aggregate is deterministic: any two complete fan-out executions
of the same invocation (even under different budgets and interleavings)
deliver the identical ordered result list, namely the schedule-order outcomes
determined by the fetch capability and the filters. -/
theorem aggregate_deterministic (fetch : FetchFun) (kwargs : Kwargs)
    (total : Int) (offsets : List Int) (N1 N2 : Nat)
    (s1 s2 : SchedState (Except PyError PageResponse))
    (hoff : fanOutOffsets kwargs total = Except.ok offsets)
    (h1 : SchedReach (fanOutOutcome fetch kwargs offsets)
      (initState (Except PyError PageResponse) N1 offsets.length) s1)
    (h2 : SchedReach (fanOutOutcome fetch kwargs offsets)
      (initState (Except PyError PageResponse) N2 offsets.length) s2)
    (hd1 : AllDone s1.tasks) (hd2 : AllDone s2.tasks) :
    collectResults s1.tasks = collectResults s2.tasks ∧
    collectResults s1.tasks
      = some ((List.range offsets.length).map
          (fanOutOutcome fetch kwargs offsets)) := by
  have e1 := sched_collect (fanOutOutcome fetch kwargs offsets) N1
    offsets.length s1 h1 hd1
  have e2 := sched_collect (fanOutOutcome fetch kwargs offsets) N2
    offsets.length s2 h2 hd2
  exact ⟨e1.trans e2.symm, e1⟩

/-- C8 witness: two complete runs with budgets 2 and 1 deliver the same
result list. -/
theorem aggregate_deterministic_witness :
    collectResults
        (SchedState.tasks
          ⟨2, [TaskStatus.done (fanOutOutcome exFetch exKwargsW [0] 0)]⟩)
      = collectResults
          (SchedState.tasks
            ⟨1, [TaskStatus.done (fanOutOutcome exFetch exKwargsW [0] 0)]⟩) ∧
    collectResults
        (SchedState.tasks
          ⟨2, [TaskStatus.done (fanOutOutcome exFetch exKwargsW [0] 0)]⟩)
      = some ((List.range ([0] : List Int).length).map
          (fanOutOutcome exFetch exKwargsW [0])) := by
  refine aggregate_deterministic exFetch exKwargsW 12 [0] 2 1
    ⟨2, [TaskStatus.done (fanOutOutcome exFetch exKwargsW [0] 0)]⟩
    ⟨1, [TaskStatus.done (fanOutOutcome exFetch exKwargsW [0] 0)]⟩
    (by decide) ?_ ?_ ?_ ?_
  · exact Relation.ReflTransGen.tail
      (Relation.ReflTransGen.single
        (SchedStep.start ⟨2, [TaskStatus.pending]⟩ 0 rfl (by decide)))
      (SchedStep.finish ⟨1, [TaskStatus.running]⟩ 0 rfl)
  · exact Relation.ReflTransGen.tail
      (Relation.ReflTransGen.single
        (SchedStep.start ⟨1, [TaskStatus.pending]⟩ 0 rfl (by decide)))
      (SchedStep.finish ⟨0, [TaskStatus.running]⟩ 0 rfl)
  · intro i hi
    have h0 : i = 0 := by simpa using hi
    subst h0
    exact ⟨fanOutOutcome exFetch exKwargsW [0] 0, rfl⟩
  · intro i hi
    have h0 : i = 0 := by simpa using hi
    subst h0
    exact ⟨fanOutOutcome exFetch exKwargsW [0] 0, rfl⟩

/-- C9: a probe response whose dictionary has no total entry is treated as
total 0: the invocation returns the empty list without raising and without
scheduling any fan-out call. -/
theorem missing_total_treated_as_zero (fetch : FetchFun) (kwargs : Kwargs)
    (r : PageResponse) (hprobe : fetch (probeCall kwargs) = Except.ok r)
    (hnone : r.total? = none) :
    fetchAllWithPagination fetch kwargs = Except.ok [] ∧
    fetchAllCalls fetch kwargs = [probeCall kwargs] := by
  have hzero : r.getTotal = 0 := by
    unfold PageResponse.getTotal
    rw [hnone]
    rfl
  have h := fetchAllTrace_total_zero fetch kwargs r hprobe hzero
  unfold fetchAllWithPagination fetchAllCalls
  rw [h]
  exact ⟨rfl, rfl⟩

/-- C9 witness. -/
theorem missing_total_treated_as_zero_witness :
    fetchAllWithPagination exFetchNoTotal [] = Except.ok [] ∧
    fetchAllCalls exFetchNoTotal [] = [probeCall []] :=
  missing_total_treated_as_zero exFetchNoTotal [] ⟨none, 0⟩ (by decide) rfl

/-- C10: with a positive reported total, a caller limit of 0 makes the
invocation raise the `range()` zero-step `ValueError` before any fan-out call
is scheduled, while any limit of at least 1 makes the tiling step well
defined, so that error branch is unreachable. -/
theorem limit_zero_range_error (fetch : FetchFun) (kwargs : Kwargs)
    (r : PageResponse) (total : Int)
    (hprobe : fetch (probeCall kwargs) = Except.ok r)
    (htotal : r.getTotal = total) (hpos : 0 < total) :
    (kwargs.getIntD "limit" DEFAULT_LIMIT = 0 →
      fetchAllWithPagination fetch kwargs
          = Except.error (PyError.valueError "range() arg 3 must not be zero") ∧
      fetchAllCalls fetch kwargs = [probeCall kwargs]) ∧
    (1 ≤ kwargs.getIntD "limit" DEFAULT_LIMIT →
      ∃ offsets, fanOutOffsets kwargs total = Except.ok offsets) := by
  constructor
  · intro h0
    have herr : fanOutOffsets kwargs total
        = Except.error (PyError.valueError "range() arg 3 must not be zero") := by
      unfold fanOutOffsets pyRange
      rw [h0, if_pos rfl]
    have h := fetchAllTrace_range_error fetch kwargs r _ hprobe
      (by rw [htotal]; omega) (by rw [htotal]; exact herr)
    unfold fetchAllWithPagination fetchAllCalls
    rw [h]
    exact ⟨rfl, rfl⟩
  · intro h1
    exact ⟨_, fanOutOffsets_ok kwargs total _ rfl h1⟩

/-- C10 witness: caller limit 0 with total 12 raises the zero-step error. -/
theorem limit_zero_range_error_witness :
    fetchAllWithPagination exFetch exKwargs0
        = Except.error (PyError.valueError "range() arg 3 must not be zero") ∧
    fetchAllCalls exFetch exKwargs0 = [probeCall exKwargs0] :=
  (limit_zero_range_error exFetch exKwargs0 ⟨some 12, 0⟩ 12
    (by decide) (by decide) (by decide)).1 (by decide)

end Inspectorio
